import Mathlib

/-!
Shallow embedding of the `@zeroad.network/token` library: the base64 helpers
(`helpers.ts`), the client-header wire codec (`encodeClientHeader`,
`decodeClientHeader`), the entitlement mapper (`buildContext`), the decode
pipeline (`parseClientToken`) and the bounded cache (`cache.ts`:
`configureCaching`, `trimCache`, `cleanExpiredEntries`).

Bytes are `Nat` values below 256; byte buffers are `List Nat`; JS strings on
the header path are `List Char`; `clientId` strings are represented by their
UTF-8 byte lists (UTF-8 encoding is injective, so string equality coincides
with byte-list equality).  Timestamps (`Date.now()`, `Date.getTime()`, cache
TTL and expiries) are `Int` milliseconds.  The external sign/verify/random
capability (`crypto.ts`) is an opaque parameter `CryptoModel`, as the spec
prescribes.
-/

namespace ZeroadToken

/-! ## Base64 codec, from `helpers.ts` (`toBase64` / `fromBase64`) -/

/-- The standard base64 alphabet used by `toBase64` and `fromBase64`. -/
def B64_CHARS : List Char :=
  "ABCDEFGHIJKLMNOPQRSTUVWXYZabcdefghijklmnopqrstuvwxyz0123456789+/".toList

/-- Character for a 6-bit value. -/
def b64Char (n : Nat) : Char := B64_CHARS.getD n 'A'

/-- Index of a character in the base64 alphabet. -/
def b64Index (c : Char) : Option Nat := List.findIdx? (fun x => x = c) B64_CHARS

/-- RFC 4648 base64 encoding of a byte list (`helpers.ts` `toBase64`:
`Buffer.from(data).toString("base64")`, with `=` padding). -/
def toBase64 : List Nat → List Char
  | [] => []
  | [a] => [b64Char (a / 4), b64Char (a % 4 * 16), '=', '=']
  | [a, b] => [b64Char (a / 4), b64Char (a % 4 * 16 + b / 16), b64Char (b % 16 * 4), '=']
  | a :: b :: c :: rest =>
    b64Char (a / 4) :: b64Char (a % 4 * 16 + b / 16) :: b64Char (b % 16 * 4 + c / 64) ::
      b64Char (c % 64) :: toBase64 rest

/-- Base64 decoding (`helpers.ts` `fromBase64`); fails on input that is not
well-formed padded base64 (the spec's step 3 failure: invalid alphabet). -/
def fromBase64 : List Char → Option (List Nat)
  | [] => some []
  | c1 :: c2 :: c3 :: c4 :: rest =>
    match b64Index c1, b64Index c2 with
    | some i1, some i2 =>
      if c3 = '=' then
        if c4 = '=' ∧ rest = [] then some [i1 * 4 + i2 / 16] else none
      else
        match b64Index c3 with
        | some i3 =>
          if c4 = '=' then
            if rest = [] then some [i1 * 4 + i2 / 16, i2 % 16 * 16 + i3 / 4] else none
          else
            match b64Index c4, fromBase64 rest with
            | some i4, some tail =>
              some ((i1 * 4 + i2 / 16) :: (i2 % 16 * 16 + i3 / 4) :: (i3 % 4 * 64 + i4) :: tail)
            | _, _ => none
        | none => none
    | _, _ => none
  | _ => none

/-! ## Features and entitlement actions (`headers/client/index.ts`) -/

/-- The `FEATURE` enum.  Modelled from the spec: the enum declaration with the
numeric values of `CLEAN_WEB` and `ONE_PASS` is not among the provided source
files (only its uses are); the spec requires an "enumeration of disjoint bit
positions", and the bundled examples show the combined bitmask of both
features as `3`, fixing `CLEAN_WEB = 1` and `ONE_PASS = 2`. -/
inductive FEATURE where
  | CLEAN_WEB
  | ONE_PASS
  deriving DecidableEq

/-- Numeric (bit) value of a `FEATURE`. -/
def FEATURE.toNat : FEATURE → Nat
  | .CLEAN_WEB => 1
  | .ONE_PASS => 2

/-- The six entitlement actions (`FEATURE_ACTION` union type). -/
inductive FEATURE_ACTION where
  | HIDE_ADVERTISEMENTS
  | HIDE_COOKIE_CONSENT_SCREEN
  | HIDE_MARKETING_DIALOGS
  | DISABLE_NON_FUNCTIONAL_TRACKING
  | DISABLE_CONTENT_PAYWALL
  | ENABLE_SUBSCRIPTION_ACCESS
  deriving DecidableEq

/-- Static feature-to-actions table (`FEATURE_TO_ACTIONS`). -/
def FEATURE_TO_ACTIONS : FEATURE → List FEATURE_ACTION
  | .CLEAN_WEB =>
    [.HIDE_ADVERTISEMENTS, .HIDE_COOKIE_CONSENT_SCREEN, .HIDE_MARKETING_DIALOGS,
     .DISABLE_NON_FUNCTIONAL_TRACKING]
  | .ONE_PASS => [.DISABLE_CONTENT_PAYWALL, .ENABLE_SUBSCRIPTION_ACCESS]

/-- Iteration order of features (`FEATURE_NUMBERS`). -/
def FEATURE_NUMBERS : List FEATURE := [.CLEAN_WEB, .ONE_PASS]

/-- `helpers.ts` `setFlags`: bitwise OR of the feature values. -/
def setFlags (features : List FEATURE) : Nat :=
  features.foldl (fun acc f => acc ||| f.toNat) 0

/-- A `TokenContext` is a JS object keyed by action names: an association list
in property-insertion order (this keeps JS object construction observable:
a partially-populated object is representable). -/
abbrev TokenContext := List (FEATURE_ACTION × Bool)

/-- Property read `context[name]`. -/
def ctxGet (ctx : TokenContext) (a : FEATURE_ACTION) : Option Bool :=
  (ctx.find? (fun e => e.1 = a)).map (fun e => e.2)

/-- Property write `context[name] = v`: updates in place if the key exists,
otherwise appends (JS object key order). -/
def ctxSet (ctx : TokenContext) (a : FEATURE_ACTION) (v : Bool) : TokenContext :=
  if (ctx.find? (fun e => e.1 = a)).isSome then
    ctx.map (fun e => if e.1 = a then (a, v) else e)
  else ctx ++ [(a, v)]

/-- The frozen `EMPTY_CONTEXT` object with all six actions false. -/
def EMPTY_CONTEXT : TokenContext :=
  [(.HIDE_ADVERTISEMENTS, false), (.HIDE_COOKIE_CONSENT_SCREEN, false),
   (.HIDE_MARKETING_DIALOGS, false), (.DISABLE_NON_FUNCTIONAL_TRACKING, false),
   (.DISABLE_CONTENT_PAYWALL, false), (.ENABLE_SUBSCRIPTION_ACCESS, false)]

/-! ## Wire codec (`decodeClientHeader` / `encodeClientHeader`) -/

/-- The official network public key (`constants.ts`). -/
def ZEROAD_NETWORK_PUBLIC_KEY : String :=
  "MCowBQYDK2VwAyEAignXRaTQtxEDl4ThULucKNQKEEO2Lo5bEO8qKwjSDVs="

/-- The opaque external crypto capability (`crypto.ts`): detached sign/verify
over raw payload bytes plus a random-nonce source, exactly the boundary the
spec declares external. -/
structure CryptoModel where
  sign : List Nat → String → List Nat
  verify : List Nat → List Nat → String → Bool
  nonce : Nat → List Nat

/-- Decoded client header (`DecodedClientHeader`): `expiresAtMs` is the
`Date.getTime()` value of the `expiresAt` field; `clientId` is the UTF-8
byte list of the optional clientId, absent when the property is absent. -/
structure DecodedClientHeader where
  version : Nat
  expiresAtMs : Int
  flags : Nat
  clientId : Option (List Nat)
  deriving DecidableEq

/-- Little-endian `DataView.getUint32(off, true)` over a byte list. -/
def readU32LE (bs : List Nat) (off : Nat) : Nat :=
  bs.getD off 0 + bs.getD (off + 1) 0 * 256 + bs.getD (off + 2) 0 * 65536 +
    bs.getD (off + 3) 0 * 16777216

/-- The little-endian 4 bytes of `n` (the memory image of a one-element
`Uint32Array`, after the constructor's ToUint32 wrap). -/
def u32LEBytes (n : Nat) : List Nat :=
  [n % 256, n / 256 % 256, n / 65536 % 256, n / 16777216 % 256]

/-- The body of `decodeClientHeader`'s `try` block: each `throw` site becomes
`Except.error` with the thrown message, keeping the five failure kinds
distinguishable (missing separator, bad base64, failed verification,
unsupported version, truncated payload). -/
def decodeClientHeaderCore (C : CryptoModel) (headerValue : List Char) (publicKey : String) :
    Except String DecodedClientHeader :=
  match List.findIdx? (fun c => c = '.') headerValue with
  | none => .error "Invalid header format: missing separator"
  | some separatorIndex =>
    let data := headerValue.take separatorIndex
    let signature := headerValue.drop (separatorIndex + 1)
    match fromBase64 data with
    | none => .error "Invalid base64 data"
    | some dataBytes =>
      match fromBase64 signature with
      | none => .error "Invalid base64 signature"
      | some signatureBytes =>
        if C.verify dataBytes signatureBytes publicKey = false then
          .error "Forged header value is provided"
        else
          let version := dataBytes.getD 0 0
          if version = 1 then
            if dataBytes.length < 13 then .error "Invalid data length"
            else
              let expiresAt := readU32LE dataBytes 5
              let flags := readU32LE dataBytes 9
              let clientId : Option (List Nat) :=
                if dataBytes.length > 13 then some (dataBytes.drop 13) else none
              .ok { version := version, expiresAtMs := (expiresAt : Int) * 1000,
                    flags := flags, clientId := clientId }
          else .error "Unsupported protocol version"

/-- `decodeClientHeader`: empty input short-circuits to `undefined`; every
failure inside the `try` block is caught, logged at warn level (a pure no-op
here) and collapsed to `undefined`. -/
def decodeClientHeader (C : CryptoModel) (headerValue : List Char) (publicKey : String) :
    Option DecodedClientHeader :=
  if headerValue.length = 0 then none
  else
    match decodeClientHeaderCore C headerValue publicKey with
    | .ok d => some d
    | .error _ => none

/-- Input of `encodeClientHeader` (`EncodeData`). -/
structure EncodeData where
  version : Nat
  expiresAtMs : Int
  features : List FEATURE
  clientId : Option (List Nat)

/-- The optional clientId tail of the payload: appended only when the
clientId is present and non-empty (`data.clientId?.length` guard). -/
def clientIdTail : Option (List Nat) → List Nat
  | some cid => if cid.length = 0 then [] else cid
  | none => []

/-- The signed payload bytes built by `mergeByteArrays` inside
`encodeClientHeader`: version byte (`Uint8Array` wraps mod 256), 4 nonce
bytes, `Math.floor(getTime()/1000)` as a `Uint32Array` element (JS `Math.floor`
on a ratio is flooring division; the `Uint32Array` constructor wraps via
ToUint32, i.e. euclidean mod 2^32), the feature OR likewise, then the tail. -/
def encodePayload (C : CryptoModel) (data : EncodeData) : List Nat :=
  [data.version % 256] ++ C.nonce 4 ++
    u32LEBytes ((Int.emod (Int.fdiv data.expiresAtMs 1000) 4294967296).toNat) ++
    u32LEBytes (setFlags data.features % 4294967296) ++
    clientIdTail data.clientId

/-- `encodeClientHeader`: base64 payload, the `.` separator, base64 signature. -/
def encodeClientHeader (C : CryptoModel) (data : EncodeData) (privateKey : String) :
    List Char :=
  toBase64 (encodePayload C data) ++ '.' :: toBase64 (C.sign (encodePayload C data) privateKey)

/-! ## Entitlement mapper (`buildContext`) -/

/-- Options of `parseClientToken` (`ParseClientTokenOptions`); `clientId` is
the site clientId as UTF-8 bytes. -/
structure ParseClientTokenOptions where
  clientId : List Nat
  features : List FEATURE
  publicKey : Option String
  bypassCache : Bool

/-- `options.publicKey || ZEROAD_NETWORK_PUBLIC_KEY`: the JS `||` also
replaces an empty string by the default key. -/
def effectivePublicKey (o : ParseClientTokenOptions) : String :=
  match o.publicKey with
  | some k => if k = "" then ZEROAD_NETWORK_PUBLIC_KEY else k
  | none => ZEROAD_NETWORK_PUBLIC_KEY

/-- JS falsiness of the optional clientId string (`!data.clientId`):
absent or empty. -/
def jsFalsyStr : Option (List Nat) → Bool
  | none => true
  | some s => s.isEmpty

/-- `buildContext`: effective flags are the token flags when the token is
present, unexpired (inclusive bound) and in scope, else 0; zero flags return
the frozen `EMPTY_CONTEXT`; otherwise the context is built by iterating
`FEATURE_NUMBERS` and assigning every action of each feature (the source
unrolls this inner loop up to four actions, a bound both action lists meet;
the `featuresSet` array/`Set` switch at size 2 is a pure membership test
either way). -/
def buildContext (data : Option DecodedClientHeader) (options : ParseClientTokenOptions)
    (now : Int) : TokenContext :=
  let flags : Nat :=
    match data with
    | some d =>
      if d.expiresAtMs ≥ now ∧ (jsFalsyStr d.clientId = true ∨ d.clientId = some options.clientId)
      then d.flags else 0
    | none => 0
  if flags = 0 then EMPTY_CONTEXT
  else
    FEATURE_NUMBERS.foldl
      (fun ctx f =>
        let isEnabled := options.features.contains f && decide (flags &&& f.toNat ≠ 0)
        (FEATURE_TO_ACTIONS f).foldl (fun c a => ctxSet c a isEnabled) ctx)
      []

/-! ## Bounded cache (`cache.ts`) -/

/-- Cache configuration (`CacheConfig`): `ttl` in milliseconds. -/
structure CacheConfig where
  enabled : Bool
  maxSize : Int
  ttl : Int
  deriving DecidableEq

/-- `DEFAULT_CACHE_CONFIG`. -/
def DEFAULT_CACHE_CONFIG : CacheConfig := { enabled := true, maxSize := 100, ttl := 5000 }

/-- A cache entry (`CacheEntry`). -/
structure CacheEntry where
  data : Option DecodedClientHeader
  effectiveExpiry : Int
  accessCount : Nat
  timestamp : Int
  deriving DecidableEq

/-- The `headerCache` JS `Map`, as an association list in insertion order
(JS `Map` iteration order); keys are kept unique. -/
abbrev HeaderCache := List (List Char × CacheEntry)

/-- The process-wide mutable state: the cache map and its configuration. -/
structure CacheState where
  config : CacheConfig
  cache : HeaderCache
  deriving DecidableEq

/-- `Map.get`. -/
def mapGet (m : HeaderCache) (k : List Char) : Option CacheEntry :=
  (m.find? (fun e => e.1 = k)).map (fun e => e.2)

/-- `Map.delete`: removes the entry with key `k`, keeping the order of the
rest. -/
def mapDelete (m : HeaderCache) (k : List Char) : HeaderCache :=
  m.filter (fun e => ¬ e.1 = k)

/-- `Map.set`: updates an existing key in place (keeping its position in the
iteration order), otherwise appends at the end. -/
def mapSet (m : HeaderCache) (k : List Char) (v : CacheEntry) : HeaderCache :=
  if (m.find? (fun e => e.1 = k)).isSome then
    m.map (fun e => if e.1 = k then (k, v) else e)
  else m ++ [(k, v)]

/-- The sort comparator of `trimCache` as a total preorder: ascending
`accessCount`, ties by ascending `timestamp` (the comparator returns the
numeric differences, so `entryLe a b` states that the comparator does not
place `a` strictly after `b`). -/
def entryLe (a b : List Char × CacheEntry) : Bool :=
  decide (a.2.accessCount < b.2.accessCount) ||
    (decide (a.2.accessCount = b.2.accessCount) && decide (a.2.timestamp ≤ b.2.timestamp))

/-- `Array.from(headerCache.entries()).sort(comparator)`: JS `sort` is
guaranteed stable, and a stable sort consistent with the total preorder
`entryLe` is unique, so the stable `List.mergeSort` is the exact result. -/
def sortEntriesJS (m : HeaderCache) : HeaderCache := m.mergeSort entryLe

/-- `trimCache`: when over capacity, removes the first
`size - maxSize` entries of the comparator-sorted entry array from the map. -/
def trimCache (cfg : CacheConfig) (m : HeaderCache) : HeaderCache :=
  if (m.length : Int) ≤ cfg.maxSize then m
  else
    let entriesToRemove := ((m.length : Int) - cfg.maxSize).toNat
    let removeKeys := ((sortEntriesJS m).take entriesToRemove).map (fun e => e.1)
    removeKeys.foldl (fun acc k => mapDelete acc k) m

/-- `cleanExpiredEntries`: full sweep deleting every entry whose
`effectiveExpiry` has passed. -/
def cleanExpiredEntries (now : Int) (m : HeaderCache) : HeaderCache :=
  m.filter (fun e => ¬ e.2.effectiveExpiry ≤ now)

/-- `Partial<CacheConfig>` argument of `configureCaching`. -/
structure PartialCacheConfig where
  enabled : Option Bool
  maxSize : Option Int
  ttl : Option Int

/-- `configureCaching`: validation throws before any mutation; on success the
config is replaced by the spread merge, the cache is cleared when the merged
config is disabled, and `trimCache` runs immediately. -/
def configureCaching (p : PartialCacheConfig) (st : CacheState) : Except String CacheState :=
  if (match p.ttl with | some t => decide (t < 0) | none => false) then
    .error "Cache TTL must be >= 0"
  else if (match p.maxSize with | some m => decide (m < 1) | none => false) then
    .error "Cache maxSize must be >= 1"
  else
    let cfg : CacheConfig :=
      { enabled := p.enabled.getD st.config.enabled,
        maxSize := p.maxSize.getD st.config.maxSize,
        ttl := p.ttl.getD st.config.ttl }
    let cache1 := if cfg.enabled = false then [] else st.cache
    .ok { config := cfg, cache := trimCache cfg cache1 }

/-- `configureCaching` as a state transformer: a thrown error leaves the
process-wide state untouched (the validation precedes every mutation in the
source) and is reported alongside it. -/
def configureCachingRun (p : PartialCacheConfig) (st : CacheState) :
    CacheState × Option String :=
  match configureCaching p st with
  | .ok st2 => (st2, none)
  | .error e => (st, some e)

/-! ## Decode pipeline (`parseClientToken`) -/

/-- `ClientHeaderValue = string | string[] | undefined`. -/
inductive ClientHeaderValue where
  | str : List Char → ClientHeaderValue
  | arr : List (List Char) → ClientHeaderValue
  | undef : ClientHeaderValue

/-- The short-circuit guard
`!headerValue || (Array.isArray(headerValue) && !headerValue.length)`:
`undefined` and the empty string are falsy; arrays are always truthy, and the
second clause catches the empty array. -/
def headerFalsy : ClientHeaderValue → Bool
  | .str s => s.isEmpty
  | .arr a => a.isEmpty
  | .undef => true

/-- `Array.isArray(headerValue) ? headerValue[0] : headerValue` (only reached
when the guard passed, so an array is non-empty here). -/
def headerFirst : ClientHeaderValue → List Char
  | .str s => s
  | .arr a => a.getD 0 []
  | .undef => []

/-- The fresh-decode tail of `parseClientToken` (lines 80-102): full decode,
then on the caching path insert/overwrite the entry, run the periodic expired
sweep (every 100th entry size) and enforce the capacity bound. -/
def parseFresh (C : CryptoModel) (s : List Char) (options : ParseClientTokenOptions)
    (st : CacheState) (now : Int) : TokenContext × CacheState :=
  let data := decodeClientHeader C s (effectivePublicKey options)
  let cache2 :=
    if st.config.enabled && !options.bypassCache then
      let cacheTTLExpiry := now + st.config.ttl
      let tokenExpiry : Int := match data with | some d => d.expiresAtMs | none => 0
      let effectiveExpiry :=
        if tokenExpiry > 0 then min cacheTTLExpiry tokenExpiry else cacheTTLExpiry
      let c1 := mapSet st.cache s
        { data := data, timestamp := now, accessCount := 1, effectiveExpiry := effectiveExpiry }
      let c2 := if c1.length > 0 && c1.length % 100 = 0 then cleanExpiredEntries now c1 else c1
      trimCache st.config c2
    else st.cache
  (buildContext data options now, { st with cache := cache2 })

/-- `parseClientToken`: short-circuit on absent/empty input, cache lookup
(fresh hit bumps `accessCount` in place and skips the codec entirely; a stale
hit is evicted), then the fresh-decode tail. -/
def parseClientToken (C : CryptoModel) (headerValue : ClientHeaderValue)
    (options : ParseClientTokenOptions) (st : CacheState) (now : Int) :
    TokenContext × CacheState :=
  if headerFalsy headerValue then (EMPTY_CONTEXT, st)
  else
    match (if st.config.enabled && !options.bypassCache then
        mapGet st.cache (headerFirst headerValue) else none) with
    | some cached =>
      if cached.effectiveExpiry > now then
        (buildContext cached.data options now,
         { st with cache := (mapSet st.cache (headerFirst headerValue)
            { cached with accessCount := cached.accessCount + 1 }) })
      else
        parseFresh C (headerFirst headerValue) options
          { st with cache := mapDelete st.cache (headerFirst headerValue) } now
    | none => parseFresh C (headerFirst headerValue) options st now

/-! ## Base64 codec lemmas -/

theorem b64Index_b64Char : ∀ n, n < 64 → b64Index (b64Char n) = some n := by decide

theorem b64Chars_length : B64_CHARS.length = 64 := by decide

theorem b64Char_ne_dot (n : Nat) : b64Char n ≠ '.' := by
  by_cases h : n < 64
  · exact (by decide : ∀ m, m < 64 → b64Char m ≠ '.') n h
  · unfold b64Char
    rw [List.getD_eq_default]
    · decide
    · rw [b64Chars_length]; omega

theorem b64Char_ne_eq (n : Nat) : b64Char n ≠ '=' := by
  by_cases h : n < 64
  · exact (by decide : ∀ m, m < 64 → b64Char m ≠ '=') n h
  · unfold b64Char
    rw [List.getD_eq_default]
    · decide
    · rw [b64Chars_length]; omega


theorem toBase64_no_dot : ∀ (l : List Nat), ∀ c ∈ toBase64 l, c ≠ '.'
  | [] => by simp [toBase64]
  | [a] => by
    intro c hc
    simp only [toBase64, List.mem_cons, List.not_mem_nil, or_false] at hc
    rcases hc with h | h | h | h <;> subst h
    · exact b64Char_ne_dot _
    · exact b64Char_ne_dot _
    · decide
    · decide
  | [a, b] => by
    intro c hc
    simp only [toBase64, List.mem_cons, List.not_mem_nil, or_false] at hc
    rcases hc with h | h | h | h <;> subst h
    · exact b64Char_ne_dot _
    · exact b64Char_ne_dot _
    · exact b64Char_ne_dot _
    · decide
  | a :: b :: d :: rest => by
    intro c hc
    simp only [toBase64, List.mem_cons] at hc
    rcases hc with h | h | h | h | h
    · subst h; exact b64Char_ne_dot _
    · subst h; exact b64Char_ne_dot _
    · subst h; exact b64Char_ne_dot _
    · subst h; exact b64Char_ne_dot _
    · exact toBase64_no_dot rest c h

theorem fromBase64_toBase64 :
    ∀ (l : List Nat), (∀ b ∈ l, b < 256) → fromBase64 (toBase64 l) = some l
  | [], _ => rfl
  | [a], h => by
    have ha : a < 256 := h a (by simp)
    simp only [toBase64, fromBase64]
    rw [b64Index_b64Char _ (by omega), b64Index_b64Char _ (by omega)]
    simp only [reduceIte, and_self, if_pos rfl]
    congr 1
    congr 1
    omega
  | [a, b], h => by
    have ha : a < 256 := h a (by simp)
    have hb : b < 256 := h b (by simp)
    simp only [toBase64, fromBase64, b64Index_b64Char (a / 4) (by omega),
      b64Index_b64Char (a % 4 * 16 + b / 16) (by omega),
      b64Index_b64Char (b % 16 * 4) (by omega),
      if_neg (b64Char_ne_eq (b % 16 * 4)), reduceIte]
    simp only [Option.some.injEq, List.cons.injEq, and_true]
    exact ⟨by omega, by omega⟩
  | a :: b :: d :: rest, h => by
    have ha : a < 256 := h a (by simp)
    have hb : b < 256 := h b (by simp)
    have hd : d < 256 := h d (by simp)
    have hrest : ∀ x ∈ rest, x < 256 := fun x hx => h x (by simp [hx])
    simp only [toBase64, fromBase64, b64Index_b64Char (a / 4) (by omega),
      b64Index_b64Char (a % 4 * 16 + b / 16) (by omega),
      b64Index_b64Char (b % 16 * 4 + d / 64) (by omega),
      b64Index_b64Char (d % 64) (by omega),
      if_neg (b64Char_ne_eq (b % 16 * 4 + d / 64)),
      if_neg (b64Char_ne_eq (d % 64)),
      fromBase64_toBase64 rest hrest]
    simp only [Option.some.injEq, List.cons.injEq, and_true]
    exact ⟨by omega, by omega, by omega⟩

/-! ## Header-splitting lemmas -/

theorem findIdx_dot (xs ys : List Char) (h : ∀ c ∈ xs, c ≠ '.') :
    List.findIdx? (fun c => c = '.') (xs ++ '.' :: ys) = some xs.length := by
  have hnone : List.findIdx? (fun c => c = '.') xs = none := by
    rw [List.findIdx?_eq_none_iff]
    intro x hx
    simp [h x hx]
  simp [List.findIdx?_append, hnone, List.findIdx?_cons]

theorem header_take (xs ys : List Char) :
    (xs ++ '.' :: ys).take xs.length = xs := by
  simp

theorem header_drop (xs ys : List Char) :
    (xs ++ '.' :: ys).drop (xs.length + 1) = ys := by
  rw [List.append_cons]
  exact List.drop_left' (by simp)

/-- Evaluation of the decode core on a well-formed header whose signature
verifies: the structured read of a version-1 payload. -/
theorem decodeCore_wellformed (C : CryptoModel) (payload sig : List Nat) (pub : String)
    (hpb : ∀ b ∈ payload, b < 256) (hsb : ∀ b ∈ sig, b < 256)
    (hv : C.verify payload sig pub = true)
    (hver : payload.getD 0 0 = 1) (hlen : 13 ≤ payload.length) :
    decodeClientHeaderCore C (toBase64 payload ++ '.' :: toBase64 sig) pub =
      .ok { version := 1, expiresAtMs := (readU32LE payload 5 : Int) * 1000,
            flags := readU32LE payload 9,
            clientId := if payload.length > 13 then some (payload.drop 13) else none } := by
  unfold decodeClientHeaderCore
  rw [findIdx_dot _ _ (toBase64_no_dot payload)]
  simp only [header_take, header_drop, fromBase64_toBase64 payload hpb,
    fromBase64_toBase64 sig hsb, hv, Bool.true_eq_false, reduceIte, hver]
  rw [if_neg (by omega)]

/-! ## Context-construction lemmas -/

/-- The fully-built context for enablement bits `e1` (CLEAN_WEB) and `e2`
(ONE_PASS). -/
def ctxTable (e1 e2 : Bool) : TokenContext :=
  [(.HIDE_ADVERTISEMENTS, e1), (.HIDE_COOKIE_CONSENT_SCREEN, e1),
   (.HIDE_MARKETING_DIALOGS, e1), (.DISABLE_NON_FUNCTIONAL_TRACKING, e1),
   (.DISABLE_CONTENT_PAYWALL, e2), (.ENABLE_SUBSCRIPTION_ACCESS, e2)]

theorem buildContext_none (options : ParseClientTokenOptions) (now : Int) :
    buildContext none options now = EMPTY_CONTEXT := rfl

theorem buildContext_cond_zero (d : DecodedClientHeader) (options : ParseClientTokenOptions)
    (now : Int)
    (h : ¬ (d.expiresAtMs ≥ now ∧
            (jsFalsyStr d.clientId = true ∨ d.clientId = some options.clientId))) :
    buildContext (some d) options now = EMPTY_CONTEXT := by
  unfold buildContext
  simp only [if_neg h, reduceIte]

theorem buildContext_flags_zero (d : DecodedClientHeader) (options : ParseClientTokenOptions)
    (now : Int) (h : d.flags = 0) :
    buildContext (some d) options now = EMPTY_CONTEXT := by
  unfold buildContext
  by_cases hc : d.expiresAtMs ≥ now ∧
      (jsFalsyStr d.clientId = true ∨ d.clientId = some options.clientId)
  · simp only [if_pos hc, h, reduceIte]
  · simp only [if_neg hc, reduceIte]

theorem buildContext_table (d : DecodedClientHeader) (options : ParseClientTokenOptions)
    (now : Int)
    (hexp : d.expiresAtMs ≥ now)
    (hsc : jsFalsyStr d.clientId = true ∨ d.clientId = some options.clientId)
    (hfl : d.flags ≠ 0) :
    buildContext (some d) options now =
      ctxTable (options.features.contains .CLEAN_WEB && decide (d.flags &&& 1 ≠ 0))
        (options.features.contains .ONE_PASS && decide (d.flags &&& 2 ≠ 0)) := by
  unfold buildContext
  simp only [if_pos (And.intro hexp hsc), if_neg hfl]
  rfl

theorem ctxGet_table (e1 e2 : Bool) :
    ctxGet (ctxTable e1 e2) .HIDE_ADVERTISEMENTS = some e1 ∧
    ctxGet (ctxTable e1 e2) .HIDE_COOKIE_CONSENT_SCREEN = some e1 ∧
    ctxGet (ctxTable e1 e2) .HIDE_MARKETING_DIALOGS = some e1 ∧
    ctxGet (ctxTable e1 e2) .DISABLE_NON_FUNCTIONAL_TRACKING = some e1 ∧
    ctxGet (ctxTable e1 e2) .DISABLE_CONTENT_PAYWALL = some e2 ∧
    ctxGet (ctxTable e1 e2) .ENABLE_SUBSCRIPTION_ACCESS = some e2 :=
  ⟨rfl, rfl, rfl, rfl, rfl, rfl⟩

theorem buildContext_total (data : Option DecodedClientHeader)
    (options : ParseClientTokenOptions) (now : Int) (a : FEATURE_ACTION) :
    (ctxGet (buildContext data options now) a).isSome = true := by
  rcases data with _ | d
  · rw [buildContext_none]; cases a <;> rfl
  · by_cases hc : d.expiresAtMs ≥ now ∧
        (jsFalsyStr d.clientId = true ∨ d.clientId = some options.clientId)
    · by_cases hf : d.flags = 0
      · rw [buildContext_flags_zero d options now hf]; cases a <;> rfl
      · rw [buildContext_table d options now hc.1 hc.2 hf]; cases a <;> rfl
    · rw [buildContext_cond_zero d options now hc]; cases a <;> rfl

/-! ## Flag-bound lemmas -/

theorem setFlags_aux_lt : ∀ (l : List FEATURE) (acc : Nat), acc < 4 →
    l.foldl (fun a f => a ||| f.toNat) acc < 4
  | [], _, h => h
  | f :: l, acc, h =>
    setFlags_aux_lt l _
      (Nat.or_lt_two_pow (n := 2) h (by cases f <;> decide))

theorem setFlags_lt_four (l : List FEATURE) : setFlags l < 4 :=
  setFlags_aux_lt l 0 (by decide)

/-! ## Encode/decode round trip -/

/-- A concrete crypto instance used to exhibit behaviours: the signature is
empty, verification always succeeds, the nonce is all zeros. -/
def trivialCrypto : CryptoModel :=
  { sign := fun _ _ => [], verify := fun _ _ _ => true,
    nonce := fun n => List.replicate n 0 }

theorem decode_encode (C : CryptoModel) (priv pub : String)
    (hverify : ∀ p, C.verify p (C.sign p priv) pub = true)
    (hnl : (C.nonce 4).length = 4) (hnb : ∀ b ∈ C.nonce 4, b < 256)
    (hsgb : ∀ p, ∀ b ∈ C.sign p priv, b < 256)
    (data : EncodeData) (hv1 : data.version = 1)
    (h0 : 0 ≤ data.expiresAtMs) (hu : Int.fdiv data.expiresAtMs 1000 < 4294967296)
    (hcb : ∀ b ∈ clientIdTail data.clientId, b < 256) :
    decodeClientHeader C (encodeClientHeader C data priv) pub =
      some { version := 1,
             expiresAtMs := Int.fdiv data.expiresAtMs 1000 * 1000,
             flags := setFlags data.features,
             clientId := if clientIdTail data.clientId = [] then none
                         else some (clientIdTail data.clientId) } := by
  have hsec0 : 0 ≤ Int.fdiv data.expiresAtMs 1000 := Int.fdiv_nonneg h0 (by norm_num)
  have hemod : Int.emod (Int.fdiv data.expiresAtMs 1000) 4294967296 =
      Int.fdiv data.expiresAtMs 1000 := Int.emod_eq_of_lt hsec0 hu
  have hflags4 : setFlags data.features < 4294967296 :=
    lt_trans (setFlags_lt_four _) (by norm_num)
  have hflagsmod : setFlags data.features % 4294967296 = setFlags data.features :=
    Nat.mod_eq_of_lt hflags4
  have hsecN : ((Int.fdiv data.expiresAtMs 1000).toNat : Int) = Int.fdiv data.expiresAtMs 1000 :=
    Int.toNat_of_nonneg hsec0
  have hsecNlt : (Int.fdiv data.expiresAtMs 1000).toNat < 4294967296 := by omega
  obtain ⟨n0, n1, n2, n3, hn⟩ : ∃ a b c d, C.nonce 4 = [a, b, c, d] := by
    rcases hns : C.nonce 4 with _ | ⟨a, _ | ⟨b, _ | ⟨c, _ | ⟨d, _ | t⟩⟩⟩⟩ <;>
      rw [hns] at hnl <;> simp at hnl
    exact ⟨a, b, c, d, rfl⟩
  have hn0 : n0 < 256 := hnb n0 (by rw [hn]; simp)
  have hn1 : n1 < 256 := hnb n1 (by rw [hn]; simp)
  have hn2 : n2 < 256 := hnb n2 (by rw [hn]; simp)
  have hn3 : n3 < 256 := hnb n3 (by rw [hn]; simp)
  have hpay : encodePayload C data =
      1 :: n0 :: n1 :: n2 :: n3 ::
      ((Int.fdiv data.expiresAtMs 1000).toNat % 256) ::
      ((Int.fdiv data.expiresAtMs 1000).toNat / 256 % 256) ::
      ((Int.fdiv data.expiresAtMs 1000).toNat / 65536 % 256) ::
      ((Int.fdiv data.expiresAtMs 1000).toNat / 16777216 % 256) ::
      (setFlags data.features % 256) ::
      (setFlags data.features / 256 % 256) ::
      (setFlags data.features / 65536 % 256) ::
      (setFlags data.features / 16777216 % 256) :: clientIdTail data.clientId := by
    unfold encodePayload
    rw [hv1, hemod, hflagsmod, hn]
    rfl
  have hpb : ∀ b ∈ encodePayload C data, b < 256 := by
    intro b hb
    rw [hpay] at hb
    simp only [List.mem_cons] at hb
    rcases hb with h | h | h | h | h | h | h | h | h | h | h | h | h | h
    all_goals try omega
    exact hcb b h
  have hverbyte : (encodePayload C data).getD 0 0 = 1 := by rw [hpay]; rfl
  have hlen13 : 13 ≤ (encodePayload C data).length := by rw [hpay]; simp
  have hlenval : (encodePayload C data).length = 13 + (clientIdTail data.clientId).length := by
    rw [hpay]; simp; omega
  have hdrop : (encodePayload C data).drop 13 = clientIdTail data.clientId := by
    rw [hpay]
    rfl
  have hr5 : readU32LE (encodePayload C data) 5 = (Int.fdiv data.expiresAtMs 1000).toNat := by
    rw [hpay]
    unfold readU32LE
    simp only [List.getD_cons_succ, List.getD_cons_zero]
    omega
  have hr9 : readU32LE (encodePayload C data) 9 = setFlags data.features := by
    rw [hpay]
    unfold readU32LE
    simp only [List.getD_cons_succ, List.getD_cons_zero]
    omega
  have hcore := decodeCore_wellformed C (encodePayload C data) (C.sign (encodePayload C data) priv)
    pub hpb (hsgb _) (hverify _) hverbyte hlen13
  unfold decodeClientHeader encodeClientHeader
  rw [if_neg (by simp)]
  rw [hcore]
  simp only [hr5, hr9, hsecN, hlenval, hdrop]
  by_cases ht : clientIdTail data.clientId = []
  · rw [if_neg (by rw [ht]; simp), if_pos ht]
  · rw [if_pos (by have := List.length_pos.mpr ht; omega), if_neg ht]

/-! ## Cache lemmas -/

theorem entryLe_total (a b : List Char × CacheEntry) : (entryLe a b || entryLe b a) = true := by
  simp only [entryLe, Bool.or_eq_true, Bool.and_eq_true, decide_eq_true_eq]
  omega

theorem entryLe_trans (a b c : List Char × CacheEntry)
    (h1 : entryLe a b = true) (h2 : entryLe b c = true) : entryLe a c = true := by
  simp only [entryLe, Bool.or_eq_true, Bool.and_eq_true, decide_eq_true_eq] at h1 h2 ⊢
  omega

theorem sortEntries_perm (m : HeaderCache) : List.Perm (sortEntriesJS m) m :=
  List.mergeSort_perm m entryLe

theorem sortEntries_pairwise (m : HeaderCache) :
    (sortEntriesJS m).Pairwise (fun a b => entryLe a b = true) :=
  List.sorted_mergeSort (fun a b c => entryLe_trans a b c) (fun a b => entryLe_total a b) m

theorem foldl_mapDelete (keys : List (List Char)) :
    ∀ (m : HeaderCache), keys.foldl (fun acc k => mapDelete acc k) m =
      m.filter (fun e => !keys.contains e.1) := by
  induction keys with
  | nil => intro m; simp [List.filter_eq_self]
  | cons k ks ih =>
    intro m
    rw [List.foldl_cons, ih (mapDelete m k)]
    unfold mapDelete
    rw [List.filter_filter]
    apply List.filter_congr
    intro e _
    simp only [List.contains_cons, Bool.not_or]
    by_cases h : e.1 = k
    · simp [h]
    · simp [h, Ne.symm h, bne_iff_ne]

theorem trimCache_over (cfg : CacheConfig) (m : HeaderCache)
    (hover : cfg.maxSize < (m.length : Int)) :
    trimCache cfg m =
      m.filter (fun e =>
        !((((sortEntriesJS m).take ((m.length : Int) - cfg.maxSize).toNat).map
            (fun e2 => e2.1)).contains e.1)) := by
  unfold trimCache
  rw [if_neg (by omega), foldl_mapDelete]

theorem keymap_contains_self (t : HeaderCache) (e : List Char × CacheEntry) (he : e ∈ t) :
    ((t.map (fun e2 => e2.1)).contains e.1) = true := by
  rw [List.contains_eq_any_beq, List.any_eq_true]
  exact ⟨e.1, List.mem_map.mpr ⟨e, he, rfl⟩, beq_self_eq_true e.1⟩

theorem keymap_not_contains (t d : HeaderCache)
    (hnd : ((t ++ d).map (fun e2 => e2.1)).Nodup)
    (e : List Char × CacheEntry) (he : e ∈ d) :
    ((t.map (fun e2 => e2.1)).contains e.1) = false := by
  rw [← Bool.not_eq_true, List.contains_eq_any_beq, List.any_eq_true]
  rintro ⟨x, hx, hbeq⟩
  obtain ⟨e2, he2, he2x⟩ := List.mem_map.mp hx
  have hx1 : e2.1 = e.1 := by
    rw [he2x]
    exact (eq_of_beq hbeq).symm
  rw [List.map_append] at hnd
  rcases List.nodup_append.mp hnd with ⟨-, -, hdis⟩
  exact hdis (List.mem_map.mpr ⟨e2, he2, rfl⟩) (hx1 ▸ List.mem_map.mpr ⟨e, he, rfl⟩)

theorem filter_keys_append (t d : HeaderCache)
    (hnd : ((t ++ d).map (fun e2 => e2.1)).Nodup) :
    (t ++ d).filter (fun e => !((t.map (fun e2 => e2.1)).contains e.1)) = d := by
  rw [List.filter_append]
  have h1 : t.filter (fun e => !((t.map (fun e2 => e2.1)).contains e.1)) = [] := by
    rw [List.filter_eq_nil_iff]
    intro e he hP
    rw [keymap_contains_self t e he] at hP
    exact absurd hP (by decide)
  have h2 : d.filter (fun e => !((t.map (fun e2 => e2.1)).contains e.1)) = d := by
    rw [List.filter_eq_self]
    intro e he
    rw [keymap_not_contains t d hnd e he]
    rfl
  rw [h1, h2, List.nil_append]

theorem trimCache_spec (cfg : CacheConfig) (m : HeaderCache)
    (hnd : (m.map (fun e => e.1)).Nodup) (hms : 1 ≤ cfg.maxSize)
    (hover : cfg.maxSize < (m.length : Int)) :
    ((trimCache cfg m).length : Int) = cfg.maxSize ∧
    (trimCache cfg m).Sublist m ∧
    (∀ e ∈ m, e ∉ trimCache cfg m → ∀ e2 ∈ trimCache cfg m, entryLe e e2 = true) := by
  have hperm : List.Perm (sortEntriesJS m) m := sortEntries_perm m
  have hpw : (sortEntriesJS m).Pairwise (fun a b => entryLe a b = true) :=
    sortEntries_pairwise m
  have hsnd : ((sortEntriesJS m).map (fun e => e.1)).Nodup :=
    ((hperm.map (fun e => e.1)).symm).nodup hnd
  have htrim := trimCache_over cfg m hover
  have hsndsplit : (((sortEntriesJS m).take (((m.length : Int) - cfg.maxSize).toNat) ++
      (sortEntriesJS m).drop (((m.length : Int) - cfg.maxSize).toNat)).map
        (fun e2 => e2.1)).Nodup := by
    rw [List.take_append_drop]
    exact hsnd
  have hfa := filter_keys_append
    ((sortEntriesJS m).take (((m.length : Int) - cfg.maxSize).toNat))
    ((sortEntriesJS m).drop (((m.length : Int) - cfg.maxSize).toNat)) hsndsplit
  have hfil_srt : (sortEntriesJS m).filter
      (fun e => !((((sortEntriesJS m).take (((m.length : Int) - cfg.maxSize).toNat)).map
        (fun e2 => e2.1)).contains e.1)) =
      (sortEntriesJS m).drop (((m.length : Int) - cfg.maxSize).toNat) := by
    have h := hfa
    rw [List.take_append_drop] at h
    exact h
  have hlenf : (trimCache cfg m).length =
      (sortEntriesJS m).length - (((m.length : Int) - cfg.maxSize).toNat) := by
    rw [htrim]
    have hp2 := (hperm.filter
      (fun e => !((((sortEntriesJS m).take (((m.length : Int) - cfg.maxSize).toNat)).map
        (fun e2 => e2.1)).contains e.1))).length_eq
    rw [← hp2, hfil_srt, List.length_drop]
  have hlensrt : (sortEntriesJS m).length = m.length := hperm.length_eq
  refine ⟨by have h2 := hlensrt; rw [hlenf]; omega, by rw [htrim]; exact List.filter_sublist m, ?_⟩
  intro e he hne e2 he2
  have heP : ¬ ((!((((sortEntriesJS m).take (((m.length : Int) - cfg.maxSize).toNat)).map
      (fun e2 => e2.1)).contains e.1)) = true) := by
    intro hPe
    exact hne (by rw [htrim]; exact List.mem_filter.mpr ⟨he, hPe⟩)
  have he_srt : e ∈ sortEntriesJS m := hperm.mem_iff.mpr he
  have he_app : e ∈ (sortEntriesJS m).take (((m.length : Int) - cfg.maxSize).toNat) ++
      (sortEntriesJS m).drop (((m.length : Int) - cfg.maxSize).toNat) := by
    rw [List.take_append_drop]
    exact he_srt
  have he_take : e ∈ (sortEntriesJS m).take (((m.length : Int) - cfg.maxSize).toNat) := by
    rcases List.mem_append.mp he_app with h | h
    · exact h
    · exfalso
      apply heP
      rw [keymap_not_contains _ _ hsndsplit e h]
      rfl
  have he2f := List.mem_filter.mp (by rw [htrim] at he2; exact he2)
  have he2_srt : e2 ∈ sortEntriesJS m := hperm.mem_iff.mpr he2f.1
  have he2_app : e2 ∈ (sortEntriesJS m).take (((m.length : Int) - cfg.maxSize).toNat) ++
      (sortEntriesJS m).drop (((m.length : Int) - cfg.maxSize).toNat) := by
    rw [List.take_append_drop]
    exact he2_srt
  have he2_drop : e2 ∈ (sortEntriesJS m).drop (((m.length : Int) - cfg.maxSize).toNat) := by
    rcases List.mem_append.mp he2_app with h | h
    · exfalso
      have hc := he2f.2
      rw [keymap_contains_self _ e2 h] at hc
      exact absurd hc (by decide)
    · exact h
  have hpw2 : ((sortEntriesJS m).take (((m.length : Int) - cfg.maxSize).toNat) ++
      (sortEntriesJS m).drop (((m.length : Int) - cfg.maxSize).toNat)).Pairwise
      (fun a b => entryLe a b = true) := by
    rw [List.take_append_drop]
    exact hpw
  exact (List.pairwise_append.mp hpw2).2.2 e he_take e2 he2_drop

/-! ## Map-operation lemmas -/

theorem mapGet_none_find (m : HeaderCache) (k : List Char) (h : mapGet m k = none) :
    m.find? (fun e => e.1 = k) = none := by
  unfold mapGet at h
  exact Option.map_eq_none.mp h

theorem mapSet_of_none (m : HeaderCache) (k : List Char) (v : CacheEntry)
    (h : mapGet m k = none) : mapSet m k v = m ++ [(k, v)] := by
  unfold mapSet
  rw [mapGet_none_find m k h]
  rfl

theorem mapGet_append_self (m : HeaderCache) (k : List Char) (v : CacheEntry)
    (h : mapGet m k = none) : mapGet (m ++ [(k, v)]) k = some v := by
  unfold mapGet
  rw [List.find?_append, mapGet_none_find m k h]
  simp

theorem mapGet_delete_self (m : HeaderCache) (k : List Char) :
    mapGet (mapDelete m k) k = none := by
  unfold mapGet mapDelete
  have h : List.find? (fun e => e.1 = k) (m.filter (fun e => ¬ e.1 = k)) = none := by
    rw [List.find?_eq_none]
    intro x hx
    rcases List.mem_filter.mp hx with ⟨-, hxk⟩
    simp only [decide_eq_true_eq] at hxk ⊢
    exact hxk
  rw [h]
  rfl

/-! ## Fresh-decode pipeline lemmas -/

/-- The cache entry written after a fresh decode, as `parseFresh` builds it. -/
def freshEntry (C : CryptoModel) (s : List Char) (options : ParseClientTokenOptions)
    (ttl now : Int) : CacheEntry :=
  let data := decodeClientHeader C s (effectivePublicKey options)
  let tokenExpiry : Int := match data with | some d => d.expiresAtMs | none => 0
  { data := data, timestamp := now, accessCount := 1,
    effectiveExpiry := if tokenExpiry > 0 then min (now + ttl) tokenExpiry else now + ttl }

theorem parseFresh_insert (C : CryptoModel) (s : List Char)
    (options : ParseClientTokenOptions) (st : CacheState) (now : Int)
    (hen : st.config.enabled = true) (hbp : options.bypassCache = false)
    (hmiss : mapGet st.cache s = none)
    (h100 : ¬ ((st.cache.length + 1) % 100 = 0))
    (hcap : (st.cache.length : Int) + 1 ≤ st.config.maxSize) :
    parseFresh C s options st now =
      (buildContext (decodeClientHeader C s (effectivePublicKey options)) options now,
       { st with cache := st.cache ++ [(s, freshEntry C s options st.config.ttl now)] }) := by
  unfold parseFresh freshEntry
  rw [hen, hbp]
  simp only [Bool.not_false, Bool.and_self, reduceIte]
  rw [mapSet_of_none st.cache s _ hmiss]
  rw [if_neg (by simp [h100])]
  rw [trimCache, if_pos (by simp; omega)]

theorem parse_str_miss (C : CryptoModel) (s : List Char)
    (options : ParseClientTokenOptions) (st : CacheState) (now : Int)
    (hs : ¬ (s = [])) (hmiss : mapGet st.cache s = none) :
    parseClientToken C (.str s) options st now = parseFresh C s options st now := by
  unfold parseClientToken
  rw [if_neg (by simp [headerFalsy, hs])]
  by_cases hc : (st.config.enabled && !options.bypassCache) = true
  · rw [if_pos hc]
    have hmiss2 : mapGet st.cache (headerFirst (.str s)) = none := hmiss
    rw [hmiss2]
    rfl
  · rw [if_neg hc]
    rfl

theorem parse_str_hit (C : CryptoModel) (s : List Char)
    (options : ParseClientTokenOptions) (st : CacheState) (now : Int) (cached : CacheEntry)
    (hs : ¬ (s = [])) (hen : st.config.enabled = true) (hbp : options.bypassCache = false)
    (hget : mapGet st.cache s = some cached) (hfr : cached.effectiveExpiry > now) :
    parseClientToken C (.str s) options st now =
      (buildContext cached.data options now,
       { st with cache := (mapSet st.cache s
          { cached with accessCount := cached.accessCount + 1 }) }) := by
  unfold parseClientToken
  rw [if_neg (by simp [headerFalsy, hs])]
  rw [hen, hbp]
  simp only [Bool.not_false, Bool.and_self, reduceIte]
  have hget2 : mapGet st.cache (headerFirst (.str s)) = some cached := hget
  rw [hget2]
  simp only [if_pos hfr]
  rfl

theorem parse_str_stale (C : CryptoModel) (s : List Char)
    (options : ParseClientTokenOptions) (st : CacheState) (now : Int) (cached : CacheEntry)
    (hs : ¬ (s = [])) (hen : st.config.enabled = true) (hbp : options.bypassCache = false)
    (hget : mapGet st.cache s = some cached) (hst : ¬ (cached.effectiveExpiry > now)) :
    parseClientToken C (.str s) options st now =
      parseFresh C s options { st with cache := mapDelete st.cache s } now := by
  unfold parseClientToken
  rw [if_neg (by simp [headerFalsy, hs])]
  rw [hen, hbp]
  simp only [Bool.not_false, Bool.and_self, reduceIte]
  have hget2 : mapGet st.cache (headerFirst (.str s)) = some cached := hget
  rw [hget2]
  simp only [if_neg hst]
  rfl

theorem decodeClientHeader_none_of_error (C : CryptoModel) (s : List Char) (pk : String)
    (e : String) (h : decodeClientHeaderCore C s pk = .error e) :
    decodeClientHeader C s pk = none := by
  unfold decodeClientHeader
  by_cases hlen : s.length = 0
  · rw [if_pos hlen]
  · rw [if_neg hlen, h]

theorem parse_total (C : CryptoModel) (hv : ClientHeaderValue)
    (options : ParseClientTokenOptions) (st : CacheState) (now : Int) (a : FEATURE_ACTION) :
    (ctxGet (parseClientToken C hv options st now).1 a).isSome = true := by
  by_cases hf : headerFalsy hv = true
  · unfold parseClientToken
    rw [if_pos hf]
    cases a <;> rfl
  · unfold parseClientToken
    rw [if_neg hf]
    rcases hm : (if st.config.enabled && !options.bypassCache then
        mapGet st.cache (headerFirst hv) else none) with _ | cached
    · simp only [hm]
      exact buildContext_total _ _ _ a
    · simp only [hm]
      by_cases hfr : cached.effectiveExpiry > now
      · rw [if_pos hfr]
        exact buildContext_total _ _ _ a
      · rw [if_neg hfr]
        exact buildContext_total _ _ _ a

theorem parse_decode_error (C : CryptoModel) (hv : ClientHeaderValue)
    (options : ParseClientTokenOptions) (st : CacheState) (now : Int) (e : String)
    (herr : decodeClientHeaderCore C (headerFirst hv) (effectivePublicKey options) = .error e)
    (hnoc : ∀ cached, (if st.config.enabled && !options.bypassCache then
        mapGet st.cache (headerFirst hv) else none) = some cached →
      cached.effectiveExpiry ≤ now) :
    (parseClientToken C hv options st now).1 = EMPTY_CONTEXT := by
  have hdec := decodeClientHeader_none_of_error C (headerFirst hv)
    (effectivePublicKey options) e herr
  by_cases hf : headerFalsy hv = true
  · unfold parseClientToken
    rw [if_pos hf]
  · unfold parseClientToken
    rw [if_neg hf]
    rcases hm : (if st.config.enabled && !options.bypassCache then
        mapGet st.cache (headerFirst hv) else none) with _ | cached
    · simp only [hm]
      show (parseFresh C (headerFirst hv) options st now).1 = EMPTY_CONTEXT
      unfold parseFresh
      rw [hdec]
      rfl
    · simp only [hm]
      have hstale := hnoc cached hm
      rw [if_neg (by omega)]
      show (parseFresh C (headerFirst hv) options
        { st with cache := mapDelete st.cache (headerFirst hv) } now).1 = EMPTY_CONTEXT
      unfold parseFresh
      rw [hdec]
      rfl

theorem trimCache_nil (cfg : CacheConfig) : trimCache cfg [] = [] := by
  unfold trimCache
  split
  · rfl
  · simp [sortEntriesJS]

/-! ## Claim theorems -/

/-- C1 counterexample: the claim quantifies over every expiry instant, but the
`Uint32Array` write truncates the second count mod 2^32: a token whose expiry
is exactly 2^32 seconds (year 2106) decodes — under a matching key pair — to
the epoch instant 0, not to the encoded instant truncated to whole seconds. -/
theorem C1_roundtrip_counterexample :
    decodeClientHeader trivialCrypto
        (encodeClientHeader trivialCrypto
          { version := 1, expiresAtMs := 4294967296000, features := [FEATURE.CLEAN_WEB],
            clientId := none } "priv") "pub" =
      some { version := 1, expiresAtMs := 0, flags := 1, clientId := none } ∧
    ¬ ((0 : Int) = Int.fdiv 4294967296000 1000 * 1000) := by
  constructor
  · decide
  · decide

/-- C1 (amended): for every version-1 token whose expiry instant is
non-negative and below 2^32 seconds, any feature combination and an optional
non-empty clientId, decoding the encoded header under a matching key pair
recovers the second-truncated expiry instant, the bitwise OR of the features,
and the clientId exactly when one was encoded. -/
theorem C1_roundtrip_amended (C : CryptoModel) (priv pub : String)
    (hverify : ∀ p, C.verify p (C.sign p priv) pub = true)
    (hnl : (C.nonce 4).length = 4) (hnb : ∀ b ∈ C.nonce 4, b < 256)
    (hsgb : ∀ p, ∀ b ∈ C.sign p priv, b < 256)
    (ms : Int) (h0 : 0 ≤ ms) (hu : Int.fdiv ms 1000 < 4294967296)
    (feats : List FEATURE) (cid : Option (List Nat))
    (hcid : ∀ c ∈ cid, ¬ (c = []) ∧ ∀ b ∈ c, b < 256) :
    decodeClientHeader C
        (encodeClientHeader C
          { version := 1, expiresAtMs := ms, features := feats, clientId := cid } priv) pub =
      some { version := 1, expiresAtMs := Int.fdiv ms 1000 * 1000,
             flags := setFlags feats, clientId := cid } := by
  have hcb : ∀ b ∈ clientIdTail cid, b < 256 := by
    rcases cid with _ | c
    · intro b hb
      exact absurd hb (by simp [clientIdTail])
    · intro b hb
      rcases hcid c rfl with ⟨hc1, hc2⟩
      apply hc2
      simp only [clientIdTail] at hb
      rw [if_neg (fun h => hc1 (List.length_eq_zero.mp h))] at hb
      exact hb
  have h := decode_encode C priv pub hverify hnl hnb hsgb
    { version := 1, expiresAtMs := ms, features := feats, clientId := cid } rfl h0 hu hcb
  rcases cid with _ | c
  · exact h
  · rcases hcid c rfl with ⟨hc1, -⟩
    have htail : clientIdTail (some c) = c := by
      simp only [clientIdTail]
      rw [if_neg (fun h => hc1 (List.length_eq_zero.mp h))]
    rw [htail] at h
    rw [h, if_neg hc1]

/-- C1 witness: a concrete round trip through the amended theorem. -/
theorem C1_roundtrip_amended_witness :
    decodeClientHeader trivialCrypto
        (encodeClientHeader trivialCrypto
          { version := 1, expiresAtMs := 5500, features := [FEATURE.CLEAN_WEB],
            clientId := some [65] } "priv") "pub" =
      some { version := 1, expiresAtMs := 5000, flags := 1, clientId := some [65] } := by
  have hcid : ∀ c ∈ (some [65] : Option (List Nat)), ¬ (c = []) ∧ ∀ b ∈ c, b < 256 := by
    intro c hc
    have hc2 : c = [65] := by
      rw [Option.mem_def] at hc
      exact (Option.some_inj.mp hc).symm
    subst hc2
    exact ⟨by decide, by decide⟩
  have h := C1_roundtrip_amended trivialCrypto "priv" "pub" (fun _ => rfl) rfl
    (by decide) (fun _ b hb => absurd hb (List.not_mem_nil b)) 5500 (by decide) (by decide)
    [FEATURE.CLEAN_WEB] (some [65]) hcid
  have he : Int.fdiv 5500 1000 * 1000 = (5000 : Int) := by decide
  rw [he] at h
  exact h

/-- C2: `parseClientToken` always yields a context defined on all six
entitlement actions, and whenever the decode core fails (any of the five
failure kinds: missing separator, bad base64, failed signature verification,
unsupported version, truncated payload) and runs — i.e. on a cache miss, with
caching disabled or bypassed, or on a stale hit, where the expired entry is
evicted and the header re-decoded (any cached entry for the header is stale)
— the caller observes exactly the all-false context — the failure is never
surfaced as a raised error. -/
theorem C2_total_no_throw (C : CryptoModel) (hv : ClientHeaderValue)
    (options : ParseClientTokenOptions) (st : CacheState) (now : Int) :
    (∀ a, (ctxGet (parseClientToken C hv options st now).1 a).isSome = true) ∧
    (∀ e, decodeClientHeaderCore C (headerFirst hv) (effectivePublicKey options) = .error e →
      (∀ cached, (if st.config.enabled && !options.bypassCache then
          mapGet st.cache (headerFirst hv) else none) = some cached →
        cached.effectiveExpiry ≤ now) →
      (parseClientToken C hv options st now).1 = EMPTY_CONTEXT) :=
  ⟨fun a => parse_total C hv options st now a,
   fun e herr hnoc => parse_decode_error C hv options st now e herr hnoc⟩

/-- C2 witness: a separator-free header against a cache holding only a stale
entry for it — the entry is evicted, the decode runs, fails, and the result
is the all-false context. -/
theorem C2_total_no_throw_witness :
    (∀ a, (ctxGet (parseClientToken trivialCrypto (.str ("x".toList))
      { clientId := [], features := [], publicKey := none, bypassCache := false }
      { config := DEFAULT_CACHE_CONFIG,
        cache := [("x".toList,
          { data := none, effectiveExpiry := 3, accessCount := 1, timestamp := 0 })] }
      5).1 a).isSome = true) ∧
    (parseClientToken trivialCrypto (.str ("x".toList))
      { clientId := [], features := [], publicKey := none, bypassCache := false }
      { config := DEFAULT_CACHE_CONFIG,
        cache := [("x".toList,
          { data := none, effectiveExpiry := 3, accessCount := 1, timestamp := 0 })] }
      5).1 = EMPTY_CONTEXT := by
  have h := C2_total_no_throw trivialCrypto (.str ("x".toList))
    { clientId := [], features := [], publicKey := none, bypassCache := false }
    { config := DEFAULT_CACHE_CONFIG,
      cache := [("x".toList,
        { data := none, effectiveExpiry := 3, accessCount := 1, timestamp := 0 })] }
    5
  refine ⟨h.1, h.2 "Invalid header format: missing separator" (by rfl) ?_⟩
  intro cached hc
  have hc2 :
      some ({ data := none, effectiveExpiry := 3, accessCount := 1, timestamp := 0 } :
        CacheEntry) = some cached := hc
  rw [← Option.some_inj.mp hc2]
  decide

/-- C3 counterexample: the claim's "exactly when" direction fails — a decoded
payload that is present, unexpired (`expiresAt = now`) and unscoped
(`clientId` absent) but carries zero flags still yields the all-false
context, though none of the claim's three conditions holds. -/
theorem C3_allfalse_counterexample :
    buildContext (some { version := 1, expiresAtMs := 5000, flags := 0, clientId := none })
        { clientId := [], features := [FEATURE.CLEAN_WEB], publicKey := none,
          bypassCache := false } 5000 = EMPTY_CONTEXT ∧
    ¬ ((5000 : Int) < 5000) ∧
    ({ version := 1, expiresAtMs := 5000, flags := 0,
       clientId := none } : DecodedClientHeader).clientId = none := by
  exact ⟨rfl, by decide, rfl⟩

/-- C3 (amended): `buildContext` returns the all-false context whenever the
payload is absent, or strictly expired, or scoped to a different clientId
(regardless of flags and expiry); additionally zero effective flags also
yield the all-false context, so the implication is not an equivalence.  The
expiry bound stays inclusive: a token with `expiresAt = now`, in scope and
with a supported flag set, yields a true action. -/
theorem C3_allfalse_amended (p : DecodedClientHeader)
    (options : ParseClientTokenOptions) (now : Int) :
    (buildContext none options now = EMPTY_CONTEXT) ∧
    (p.expiresAtMs < now → buildContext (some p) options now = EMPTY_CONTEXT) ∧
    (jsFalsyStr p.clientId = false → ¬ (p.clientId = some options.clientId) →
      buildContext (some p) options now = EMPTY_CONTEXT) ∧
    (p.flags = 0 → buildContext (some p) options now = EMPTY_CONTEXT) ∧
    (p.expiresAtMs = now → jsFalsyStr p.clientId = true → p.flags = 1 →
      options.features.contains FEATURE.CLEAN_WEB = true →
      ctxGet (buildContext (some p) options now) .HIDE_ADVERTISEMENTS = some true) := by
  refine ⟨buildContext_none options now, ?_, ?_, ?_, ?_⟩
  · intro h
    apply buildContext_cond_zero
    rintro ⟨h1, -⟩
    omega
  · intro hnf hne
    apply buildContext_cond_zero
    rintro ⟨-, h2 | h2⟩
    · rw [hnf] at h2
      exact absurd h2 (by decide)
    · exact hne h2
  · intro hfl
    exact buildContext_flags_zero p options now hfl
  · intro hexp hfal hfl hcw
    rw [buildContext_table p options now (by omega) (Or.inl hfal) (by rw [hfl]; decide)]
    rw [(ctxGet_table _ _).1, hfl, hcw]
    decide

/-- C3 witness: concrete instances of each amended conjunct. -/
theorem C3_allfalse_amended_witness :
    (buildContext (some { version := 1, expiresAtMs := 4999, flags := 1, clientId := none })
      { clientId := [], features := [FEATURE.CLEAN_WEB], publicKey := none,
        bypassCache := false } 5000 = EMPTY_CONTEXT) ∧
    (buildContext
      (some { version := 1, expiresAtMs := 9999999, flags := 1, clientId := some [65] })
      { clientId := [66], features := [FEATURE.CLEAN_WEB], publicKey := none,
        bypassCache := false } 5000 = EMPTY_CONTEXT) ∧
    (ctxGet (buildContext
      (some { version := 1, expiresAtMs := 5000, flags := 1, clientId := none })
      { clientId := [], features := [FEATURE.CLEAN_WEB], publicKey := none,
        bypassCache := false } 5000) .HIDE_ADVERTISEMENTS = some true) := by
  refine ⟨?_, ?_, ?_⟩
  · exact (C3_allfalse_amended { version := 1, expiresAtMs := 4999, flags := 1, clientId := none }
      { clientId := [], features := [FEATURE.CLEAN_WEB], publicKey := none,
        bypassCache := false } 5000).2.1 (by decide)
  · exact (C3_allfalse_amended
      { version := 1, expiresAtMs := 9999999, flags := 1, clientId := some [65] }
      { clientId := [66], features := [FEATURE.CLEAN_WEB], publicKey := none,
        bypassCache := false } 5000).2.2.1 (by decide) (by decide)
  · exact (C3_allfalse_amended { version := 1, expiresAtMs := 5000, flags := 1, clientId := none }
      { clientId := [], features := [FEATURE.CLEAN_WEB], publicKey := none,
        bypassCache := false } 5000).2.2.2.2 (by decide) (by decide) (by decide) (by decide)

/-- C4: for an unexpired, in-scope decoded token, every entitlement action is
true exactly when its feature is both declared by the site and bit-set in the
token flags; the context is total over all six actions; and the concrete
CLEAN_WEB scenario yields the spec's table. -/
theorem C4_entitlement_iff (p : DecodedClientHeader)
    (options : ParseClientTokenOptions) (now : Int) :
    (p.expiresAtMs ≥ now →
     (jsFalsyStr p.clientId = true ∨ p.clientId = some options.clientId) →
     (∀ f ∈ FEATURE_NUMBERS, ∀ a ∈ FEATURE_TO_ACTIONS f,
        ctxGet (buildContext (some p) options now) a =
          some (options.features.contains f && decide (p.flags &&& f.toNat ≠ 0))) ∧
     (∀ a, (ctxGet (buildContext (some p) options now) a).isSome = true)) ∧
    (buildContext
      (some { version := 1, expiresAtMs := now, flags := 1, clientId := none })
      { clientId := [83, 73, 84, 69, 49], features := [FEATURE.CLEAN_WEB],
        publicKey := none, bypassCache := false } now =
      [(.HIDE_ADVERTISEMENTS, true), (.HIDE_COOKIE_CONSENT_SCREEN, true),
       (.HIDE_MARKETING_DIALOGS, true), (.DISABLE_NON_FUNCTIONAL_TRACKING, true),
       (.DISABLE_CONTENT_PAYWALL, false), (.ENABLE_SUBSCRIPTION_ACCESS, false)]) := by
  constructor
  · intro hexp hsc
    constructor
    · intro f hf a ha
      by_cases hfl : p.flags = 0
      · rw [buildContext_flags_zero p options now hfl, hfl]
        fin_cases hf <;> fin_cases ha <;> simp [ctxGet, EMPTY_CONTEXT]
      · rw [buildContext_table p options now hexp hsc hfl]
        fin_cases hf <;> fin_cases ha <;> rfl
    · intro a
      exact buildContext_total _ _ _ a
  · rw [buildContext_table
      { version := 1, expiresAtMs := now, flags := 1, clientId := none }
      { clientId := [83, 73, 84, 69, 49], features := [FEATURE.CLEAN_WEB],
        publicKey := none, bypassCache := false }
      now (le_refl now) (Or.inl rfl) Nat.one_ne_zero]
    show ctxTable (([FEATURE.CLEAN_WEB].contains FEATURE.CLEAN_WEB) &&
        decide ((1 : Nat) &&& 1 ≠ 0))
      (([FEATURE.CLEAN_WEB].contains FEATURE.ONE_PASS) && decide ((1 : Nat) &&& 2 ≠ 0)) = _
    decide

/-- C4 witness: the scenario instance plus the iff at a concrete token. -/
theorem C4_entitlement_iff_witness :
    (ctxGet (buildContext
      (some { version := 1, expiresAtMs := 7000, flags := 1, clientId := none })
      { clientId := [], features := [FEATURE.CLEAN_WEB], publicKey := none,
        bypassCache := false } 6000) .HIDE_ADVERTISEMENTS =
      some (([FEATURE.CLEAN_WEB].contains FEATURE.CLEAN_WEB) &&
        decide ((1 : Nat) &&& FEATURE.toNat .CLEAN_WEB ≠ 0))) ∧
    (buildContext
      (some { version := 1, expiresAtMs := 6000, flags := 1, clientId := none })
      { clientId := [83, 73, 84, 69, 49], features := [FEATURE.CLEAN_WEB],
        publicKey := none, bypassCache := false } 6000 =
      [(.HIDE_ADVERTISEMENTS, true), (.HIDE_COOKIE_CONSENT_SCREEN, true),
       (.HIDE_MARKETING_DIALOGS, true), (.DISABLE_NON_FUNCTIONAL_TRACKING, true),
       (.DISABLE_CONTENT_PAYWALL, false), (.ENABLE_SUBSCRIPTION_ACCESS, false)]) := by
  constructor
  · exact ((C4_entitlement_iff
      { version := 1, expiresAtMs := 7000, flags := 1, clientId := none }
      { clientId := [], features := [FEATURE.CLEAN_WEB], publicKey := none,
        bypassCache := false } 6000).1 (by decide) (Or.inl (by decide))).1
      FEATURE.CLEAN_WEB (by decide) .HIDE_ADVERTISEMENTS (by decide)
  · exact (C4_entitlement_iff
      { version := 1, expiresAtMs := 6000, flags := 1, clientId := none }
      { clientId := [83, 73, 84, 69, 49], features := [FEATURE.CLEAN_WEB],
        publicKey := none, bypassCache := false } 6000).2

/-- C5: when the cache holds more entries than `maxSize` (with the config
invariant `maxSize ≥ 1` and distinct keys), `trimCache` leaves exactly
`maxSize` entries — removing exactly `size - maxSize` — as a sublist of the
original map (every kept entry unchanged, in order), and every removed entry
precedes every kept entry in the eviction preorder: ascending `accessCount`
with ties by ascending insertion timestamp.  With `size = maxSize + 1` this
is the claim's single-eviction scenario. -/
theorem C5_trim_eviction (cfg : CacheConfig) (m : HeaderCache)
    (hnd : (m.map (fun e => e.1)).Nodup) (hms : 1 ≤ cfg.maxSize)
    (hover : cfg.maxSize < (m.length : Int)) :
    ((trimCache cfg m).length : Int) = cfg.maxSize ∧
    (trimCache cfg m).Sublist m ∧
    (∀ e ∈ m, e ∉ trimCache cfg m → ∀ e2 ∈ trimCache cfg m, entryLe e e2 = true) :=
  trimCache_spec cfg m hnd hms hover

/-- C5 witness: capacity 1, two entries with equal access counts — exactly one
entry is evicted and the survivor is the younger one, which the older entry
precedes in the eviction order. -/
theorem C5_trim_eviction_witness :
    ((trimCache { enabled := true, maxSize := 1, ttl := 0 }
      [("a".toList, { data := none, effectiveExpiry := 9, accessCount := 1, timestamp := 0 }),
       ("b".toList,
        { data := none, effectiveExpiry := 9, accessCount := 1, timestamp := 1 })]).length :
      Int) = 1 ∧
    (trimCache { enabled := true, maxSize := 1, ttl := 0 }
      [("a".toList, { data := none, effectiveExpiry := 9, accessCount := 1, timestamp := 0 }),
       ("b".toList,
        { data := none, effectiveExpiry := 9, accessCount := 1, timestamp := 1 })]).Sublist
      [("a".toList, { data := none, effectiveExpiry := 9, accessCount := 1, timestamp := 0 }),
       ("b".toList,
        { data := none, effectiveExpiry := 9, accessCount := 1, timestamp := 1 })] := by
  have h := C5_trim_eviction { enabled := true, maxSize := 1, ttl := 0 }
    [("a".toList, { data := none, effectiveExpiry := 9, accessCount := 1, timestamp := 0 }),
     ("b".toList, { data := none, effectiveExpiry := 9, accessCount := 1, timestamp := 1 })]
    (by decide) (by decide) (by decide)
  exact ⟨h.1, h.2.1⟩

/-- C6: with caching enabled and not bypassed — (a) a miss stores the fresh
entry with `accessCount = 1` and `effectiveExpiry = now + ttl` when the
decode failed (no token expiry), or `min (now + ttl) (token expiry)` when the
token carries a positive expiry; (b) a fresh hit derives the context from the
cached payload, only bumps the entry's `accessCount`, and is independent of
the crypto capability (re-verification is skipped); (c) a stale hit — in
particular any entry after its TTL deadline, regardless of the token's own
expiry — evicts the entry and performs a full decode, re-inserting a fresh
entry. -/
theorem C6_cache_lifecycle (C : CryptoModel) (s : List Char)
    (options : ParseClientTokenOptions) (st : CacheState) (now : Int)
    (hs : ¬ (s = [])) (hen : st.config.enabled = true) (hbp : options.bypassCache = false) :
    (mapGet st.cache s = none →
      ¬ ((st.cache.length + 1) % 100 = 0) →
      (st.cache.length : Int) + 1 ≤ st.config.maxSize →
      mapGet (parseClientToken C (.str s) options st now).2.cache s =
        some (freshEntry C s options st.config.ttl now) ∧
      (freshEntry C s options st.config.ttl now).accessCount = 1 ∧
      (decodeClientHeader C s (effectivePublicKey options) = none →
        (freshEntry C s options st.config.ttl now).effectiveExpiry = now + st.config.ttl) ∧
      (∀ d, decodeClientHeader C s (effectivePublicKey options) = some d →
        0 < d.expiresAtMs →
        (freshEntry C s options st.config.ttl now).effectiveExpiry =
          min (now + st.config.ttl) d.expiresAtMs)) ∧
    (∀ cached, mapGet st.cache s = some cached → cached.effectiveExpiry > now →
      parseClientToken C (.str s) options st now =
        (buildContext cached.data options now,
         { st with cache := (mapSet st.cache s
            { cached with accessCount := cached.accessCount + 1 }) }) ∧
      (∀ C2, parseClientToken C2 (.str s) options st now =
        parseClientToken C (.str s) options st now)) ∧
    (∀ cached, mapGet st.cache s = some cached → cached.effectiveExpiry ≤ now →
      (parseClientToken C (.str s) options st now).1 =
        buildContext (decodeClientHeader C s (effectivePublicKey options)) options now ∧
      (¬ (((mapDelete st.cache s).length + 1) % 100 = 0) →
       ((mapDelete st.cache s).length : Int) + 1 ≤ st.config.maxSize →
       mapGet (parseClientToken C (.str s) options st now).2.cache s =
         some (freshEntry C s options st.config.ttl now))) := by
  refine ⟨?_, ?_, ?_⟩
  · intro hmiss h100 hcap
    rw [parse_str_miss C s options st now hs hmiss,
      parseFresh_insert C s options st now hen hbp hmiss h100 hcap]
    refine ⟨mapGet_append_self st.cache s _ hmiss, rfl, ?_, ?_⟩
    · intro hdec
      unfold freshEntry
      rw [hdec]
      rfl
    · intro d hdec hpos
      unfold freshEntry
      rw [hdec]
      show (if d.expiresAtMs > 0 then min (now + st.config.ttl) d.expiresAtMs
        else now + st.config.ttl) = min (now + st.config.ttl) d.expiresAtMs
      rw [if_pos hpos]
  · intro cached hget hfr
    have heq := parse_str_hit C s options st now cached hs hen hbp hget hfr
    refine ⟨heq, ?_⟩
    intro C2
    rw [heq, parse_str_hit C2 s options st now cached hs hen hbp hget hfr]
  · intro cached hget hstale
    have heq := parse_str_stale C s options st now cached hs hen hbp hget (by omega)
    constructor
    · rw [heq]
      rfl
    · intro h100 hcap
      rw [heq, parseFresh_insert C s options
        { st with cache := mapDelete st.cache s } now hen hbp
        (mapGet_delete_self st.cache s) h100 hcap]
      exact mapGet_append_self (mapDelete st.cache s) s _ (mapGet_delete_self st.cache s)

/-- C6 witness: a miss on the empty default cache stores the fresh entry with
`accessCount = 1` and `effectiveExpiry = now + ttl` (the decode of a
separator-free header fails, so there is no token expiry). -/
theorem C6_cache_lifecycle_witness :
    mapGet (parseClientToken trivialCrypto (.str ("h".toList))
      { clientId := [], features := [], publicKey := none, bypassCache := false }
      { config := DEFAULT_CACHE_CONFIG, cache := [] } 0).2.cache ("h".toList) =
      some (freshEntry trivialCrypto ("h".toList)
        { clientId := [], features := [], publicKey := none, bypassCache := false } 5000 0) ∧
    (freshEntry trivialCrypto ("h".toList)
      { clientId := [], features := [], publicKey := none, bypassCache := false }
      5000 0).accessCount = 1 ∧
    (freshEntry trivialCrypto ("h".toList)
      { clientId := [], features := [], publicKey := none, bypassCache := false }
      5000 0).effectiveExpiry = 0 + 5000 := by
  have h := C6_cache_lifecycle trivialCrypto ("h".toList)
    { clientId := [], features := [], publicKey := none, bypassCache := false }
    { config := DEFAULT_CACHE_CONFIG, cache := [] } 0 (by decide) rfl rfl
  have h1 := h.1 (by rfl) (by decide) (by decide)
  exact ⟨h1.1, h1.2.1, h1.2.2.1 (by rfl)⟩

/-- C7: `configureCaching` reports an error exactly when the supplied ttl is
negative or the supplied maxSize is below 1, in which case the state (config
and cache) is returned untouched; a valid call installs the spread-merged
configuration, clears the cache entirely when the merged configuration is
disabled, and immediately re-applies the capacity bound via `trimCache`. -/
theorem C7_configure_validation (p : PartialCacheConfig) (st : CacheState) :
    (((∃ t, p.ttl = some t ∧ t < 0) ∨ (∃ q, p.maxSize = some q ∧ q < 1)) ↔
      (configureCachingRun p st).2.isSome = true) ∧
    ((configureCachingRun p st).2.isSome = true → (configureCachingRun p st).1 = st) ∧
    (∀ st2, configureCachingRun p st = (st2, none) →
      st2.config = { enabled := p.enabled.getD st.config.enabled,
                     maxSize := p.maxSize.getD st.config.maxSize,
                     ttl := p.ttl.getD st.config.ttl } ∧
      (st2.config.enabled = false → st2.cache = []) ∧
      st2.cache = trimCache st2.config
        (if st2.config.enabled = false then [] else st.cache)) := by
  have hiff1 : (match p.ttl with | some t => decide (t < 0) | none => false) = true ↔
      (∃ t, p.ttl = some t ∧ t < 0) := by
    rcases p.ttl with _ | t <;> simp
  have hiff2 : (match p.maxSize with | some q => decide (q < 1) | none => false) = true ↔
      (∃ q, p.maxSize = some q ∧ q < 1) := by
    rcases p.maxSize with _ | q <;> simp
  by_cases h1 : (match p.ttl with | some t => decide (t < 0) | none => false) = true
  · have hrun : configureCachingRun p st = (st, some "Cache TTL must be >= 0") := by
      unfold configureCachingRun configureCaching
      rw [if_pos h1]
    rw [hrun]
    refine ⟨⟨fun _ => rfl, fun _ => Or.inl (hiff1.mp h1)⟩, fun _ => rfl, ?_⟩
    intro st2 heq
    exact absurd (congrArg Prod.snd heq) (by simp)
  · by_cases h2 : (match p.maxSize with | some q => decide (q < 1) | none => false) = true
    · have hrun : configureCachingRun p st = (st, some "Cache maxSize must be >= 1") := by
        unfold configureCachingRun configureCaching
        rw [if_neg h1, if_pos h2]
      rw [hrun]
      refine ⟨⟨fun _ => rfl, fun _ => Or.inr (hiff2.mp h2)⟩, fun _ => rfl, ?_⟩
      intro st2 heq
      exact absurd (congrArg Prod.snd heq) (by simp)
    · have hrun : configureCachingRun p st =
        ({ config := { enabled := p.enabled.getD st.config.enabled,
                       maxSize := p.maxSize.getD st.config.maxSize,
                       ttl := p.ttl.getD st.config.ttl },
           cache := trimCache
             { enabled := p.enabled.getD st.config.enabled,
               maxSize := p.maxSize.getD st.config.maxSize,
               ttl := p.ttl.getD st.config.ttl }
             (if (p.enabled.getD st.config.enabled) = false then [] else st.cache) },
         none) := by
        unfold configureCachingRun configureCaching
        rw [if_neg h1, if_neg h2]
      rw [hrun]
      refine ⟨⟨?_, by simp⟩, by simp, ?_⟩
      · intro hin
        rcases hin with ⟨t, ht, htlt⟩ | ⟨q, hq, hqlt⟩
        · exact absurd (hiff1.mpr ⟨t, ht, htlt⟩) h1
        · exact absurd (hiff2.mpr ⟨q, hq, hqlt⟩) h2
      · intro st2 heq
        have hst2 := congrArg Prod.fst heq
        simp only at hst2
        subst hst2
        refine ⟨rfl, ?_, rfl⟩
        intro hdis
        show trimCache _ (if (p.enabled.getD st.config.enabled) = false
          then [] else st.cache) = []
        rw [if_pos hdis]
        exact trimCache_nil _

/-- C7 witness: a negative ttl is rejected leaving the state untouched;
disabling clears the cache. -/
theorem C7_configure_validation_witness :
    (configureCachingRun { enabled := none, maxSize := none, ttl := some (-1) }
      { config := DEFAULT_CACHE_CONFIG, cache := [] }).2.isSome = true ∧
    (configureCachingRun { enabled := none, maxSize := none, ttl := some (-1) }
      { config := DEFAULT_CACHE_CONFIG, cache := [] }).1 =
      { config := DEFAULT_CACHE_CONFIG, cache := [] } ∧
    (configureCachingRun { enabled := some false, maxSize := none, ttl := none }
      { config := DEFAULT_CACHE_CONFIG, cache := [] }).1.cache = [] := by
  have hA := C7_configure_validation { enabled := none, maxSize := none, ttl := some (-1) }
    { config := DEFAULT_CACHE_CONFIG, cache := [] }
  have hB := C7_configure_validation { enabled := some false, maxSize := none, ttl := none }
    { config := DEFAULT_CACHE_CONFIG, cache := [] }
  have herr : (configureCachingRun { enabled := none, maxSize := none, ttl := some (-1) }
      { config := DEFAULT_CACHE_CONFIG, cache := [] }).2.isSome = true :=
    hA.1.mp (Or.inl ⟨-1, rfl, by decide⟩)
  refine ⟨herr, hA.2.1 herr, ?_⟩
  have hok := (hB.2.2 (configureCachingRun
    { enabled := some false, maxSize := none, ttl := none }
    { config := DEFAULT_CACHE_CONFIG, cache := [] }).1 (by rfl))
  rw [hok.2.1 (by rfl)]

/-- C8: for every version-1 encode whose second-truncated expiry fits in 32
bits, the signed payload is, in order, the version byte 1, the 4 nonce bytes,
the little-endian 4-byte second-truncated expiry at offset 5, the
little-endian 4-byte OR of the feature values at offset 9, then the clientId
bytes when non-empty; the emitted header is base64 of that payload, the `.`
separator, and base64 of the signature over the full payload. -/
theorem C8_payload_layout (C : CryptoModel) (data : EncodeData) (priv : String)
    (hv1 : data.version = 1) (h0 : 0 ≤ data.expiresAtMs)
    (hu : Int.fdiv data.expiresAtMs 1000 < 4294967296)
    (hnl : (C.nonce 4).length = 4) :
    (encodePayload C data =
      [1] ++ C.nonce 4 ++ u32LEBytes (Int.fdiv data.expiresAtMs 1000).toNat ++
        u32LEBytes (setFlags data.features) ++ clientIdTail data.clientId) ∧
    readU32LE (encodePayload C data) 5 = (Int.fdiv data.expiresAtMs 1000).toNat ∧
    readU32LE (encodePayload C data) 9 = setFlags data.features ∧
    encodeClientHeader C data priv =
      toBase64 (encodePayload C data) ++ '.' ::
        toBase64 (C.sign (encodePayload C data) priv) := by
  have hsec0 : 0 ≤ Int.fdiv data.expiresAtMs 1000 := Int.fdiv_nonneg h0 (by norm_num)
  have hemod : Int.emod (Int.fdiv data.expiresAtMs 1000) 4294967296 =
      Int.fdiv data.expiresAtMs 1000 := Int.emod_eq_of_lt hsec0 hu
  have hflags4 : setFlags data.features < 4294967296 :=
    lt_trans (setFlags_lt_four _) (by norm_num)
  have hflagsmod : setFlags data.features % 4294967296 = setFlags data.features :=
    Nat.mod_eq_of_lt hflags4
  have hsecNlt : (Int.fdiv data.expiresAtMs 1000).toNat < 4294967296 := by omega
  have hpay0 : encodePayload C data =
      [1] ++ C.nonce 4 ++ u32LEBytes (Int.fdiv data.expiresAtMs 1000).toNat ++
        u32LEBytes (setFlags data.features) ++ clientIdTail data.clientId := by
    unfold encodePayload
    rw [hv1, hemod, hflagsmod]
  obtain ⟨n0, n1, n2, n3, hn⟩ : ∃ a b c d, C.nonce 4 = [a, b, c, d] := by
    rcases hns : C.nonce 4 with _ | ⟨a, _ | ⟨b, _ | ⟨c, _ | ⟨d, _ | t⟩⟩⟩⟩ <;>
      rw [hns] at hnl <;> simp at hnl
    exact ⟨a, b, c, d, rfl⟩
  have hpay : encodePayload C data =
      1 :: n0 :: n1 :: n2 :: n3 ::
      ((Int.fdiv data.expiresAtMs 1000).toNat % 256) ::
      ((Int.fdiv data.expiresAtMs 1000).toNat / 256 % 256) ::
      ((Int.fdiv data.expiresAtMs 1000).toNat / 65536 % 256) ::
      ((Int.fdiv data.expiresAtMs 1000).toNat / 16777216 % 256) ::
      (setFlags data.features % 256) ::
      (setFlags data.features / 256 % 256) ::
      (setFlags data.features / 65536 % 256) ::
      (setFlags data.features / 16777216 % 256) :: clientIdTail data.clientId := by
    rw [hpay0, hn]
    rfl
  refine ⟨hpay0, ?_, ?_, rfl⟩
  · rw [hpay]
    unfold readU32LE
    simp only [List.getD_cons_succ, List.getD_cons_zero]
    omega
  · rw [hpay]
    unfold readU32LE
    simp only [List.getD_cons_succ, List.getD_cons_zero]
    have := setFlags_lt_four data.features
    omega

/-- C8 witness: a concrete payload layout. -/
theorem C8_payload_layout_witness :
    encodePayload trivialCrypto
      { version := 1, expiresAtMs := 5500, features := [FEATURE.CLEAN_WEB],
        clientId := some [65] } =
      [1] ++ [0, 0, 0, 0] ++ u32LEBytes 5 ++ u32LEBytes 1 ++ [65] ∧
    readU32LE (encodePayload trivialCrypto
      { version := 1, expiresAtMs := 5500, features := [FEATURE.CLEAN_WEB],
        clientId := some [65] }) 5 = 5 := by
  have h := C8_payload_layout trivialCrypto
    { version := 1, expiresAtMs := 5500, features := [FEATURE.CLEAN_WEB],
      clientId := some [65] } "priv" rfl (by decide) (by decide) rfl
  have he : (Int.fdiv 5500 1000).toNat = 5 := by decide
  rw [he] at h
  exact ⟨h.1, h.2.1⟩

/-- C9: absent or empty header input — `undefined`, the empty string, or the
empty array — short-circuits `parseClientToken` to the all-false context with
the cache state returned entirely unchanged, for every crypto capability and
every cache state: neither the codec nor signature verification nor the
cache is ever consulted. -/
theorem C9_empty_input_frame (C : CryptoModel) (options : ParseClientTokenOptions)
    (st : CacheState) (now : Int) :
    parseClientToken C .undef options st now = (EMPTY_CONTEXT, st) ∧
    parseClientToken C (.str []) options st now = (EMPTY_CONTEXT, st) ∧
    parseClientToken C (.arr []) options st now = (EMPTY_CONTEXT, st) :=
  ⟨rfl, rfl, rfl⟩

/-- C10: an empty-string clientId is indistinguishable from an absent one —
the encoder emits the same 13-byte payload with no clientId tail, the decoder
returns a result without a clientId field, and `buildContext` treats such a
token as unscoped, producing the same context for every site clientId. -/
theorem C10_empty_clientid (C : CryptoModel) (priv pub : String)
    (hverify : ∀ p, C.verify p (C.sign p priv) pub = true)
    (hnl : (C.nonce 4).length = 4) (hnb : ∀ b ∈ C.nonce 4, b < 256)
    (hsgb : ∀ p, ∀ b ∈ C.sign p priv, b < 256)
    (ms : Int) (h0 : 0 ≤ ms) (hu : Int.fdiv ms 1000 < 4294967296)
    (feats : List FEATURE) :
    (encodePayload C
        { version := 1, expiresAtMs := ms, features := feats, clientId := some [] } =
      encodePayload C
        { version := 1, expiresAtMs := ms, features := feats, clientId := none } ∧
     (encodePayload C
        { version := 1, expiresAtMs := ms, features := feats,
          clientId := some [] }).length = 13) ∧
    decodeClientHeader C (encodeClientHeader C
        { version := 1, expiresAtMs := ms, features := feats, clientId := some [] } priv)
        pub =
      some { version := 1, expiresAtMs := Int.fdiv ms 1000 * 1000,
             flags := setFlags feats, clientId := none } ∧
    (∀ (d : DecodedClientHeader) (options : ParseClientTokenOptions)
        (x : List Nat) (now : Int),
      jsFalsyStr d.clientId = true →
      buildContext (some d) options now =
        buildContext (some d) { options with clientId := x } now) := by
  refine ⟨⟨rfl, ?_⟩, ?_, ?_⟩
  · unfold encodePayload u32LEBytes clientIdTail
    rw [List.length_append, List.length_append, List.length_append, List.length_append, hnl]
    rfl
  · have h := decode_encode C priv pub hverify hnl hnb hsgb
      { version := 1, expiresAtMs := ms, features := feats, clientId := some [] } rfl h0 hu
      (by intro b hb; exact absurd hb (by simp [clientIdTail]))
    exact h
  · intro d options x now hfal
    by_cases hexp : d.expiresAtMs ≥ now
    · by_cases hfl : d.flags = 0
      · rw [buildContext_flags_zero d options now hfl,
          buildContext_flags_zero d { options with clientId := x } now hfl]
      · rw [buildContext_table d options now hexp (Or.inl hfal) hfl,
          buildContext_table d { options with clientId := x } now hexp (Or.inl hfal) hfl]
    · rw [buildContext_cond_zero d options now (fun hc => hexp hc.1),
        buildContext_cond_zero d { options with clientId := x } now (fun hc => hexp hc.1)]

/-- C10 witness: a concrete empty-clientId token round trip. -/
theorem C10_empty_clientid_witness :
    (encodePayload trivialCrypto
      { version := 1, expiresAtMs := 5500, features := [FEATURE.CLEAN_WEB],
        clientId := some [] }).length = 13 ∧
    decodeClientHeader trivialCrypto (encodeClientHeader trivialCrypto
      { version := 1, expiresAtMs := 5500, features := [FEATURE.CLEAN_WEB],
        clientId := some [] } "priv") "pub" =
      some { version := 1, expiresAtMs := 5000, flags := 1, clientId := none } := by
  have h := C10_empty_clientid trivialCrypto "priv" "pub" (fun _ => rfl) rfl
    (by decide) (fun _ b hb => absurd hb (List.not_mem_nil b)) 5500 (by decide) (by decide)
    [FEATURE.CLEAN_WEB]
  have he : Int.fdiv 5500 1000 * 1000 = (5000 : Int) := by decide
  rw [he] at h
  exact ⟨h.1.2, h.2.1⟩

end ZeroadToken
